import Mathlib

/-!
Verification development for the feature-tracking front-end in
`lib/display.py` (class `Display`).  The pure algorithmic content of the
pipeline is embedded shallowly:

* `Frame` models a `numpy` image (width, height, 3 channels);
* `find_matches` embeds `Display.find_matches` (temporal state check,
  k-nearest-neighbour matching with `k = 2`, the `0.75` ratio test);
* `find_orbs` embeds `Display.find_orbs` (corner detection, debug circle
  drawing, ORB descriptor computation);
* `draw` embeds the per-frame pipeline of `Display.draw` (resize, detect,
  match, unconditional replacement of `self.last`).

The OpenCV library calls (`cv2.resize`, `cv2.goodFeaturesToTrack`,
`cv2.circle`, `ORB.compute`, `BFMatcher.knnMatch`) are not part of the
repository; they are modelled from the specification's description of the
corresponding components, with their Python-visible calling conventions
(`goodFeaturesToTrack` yields `None` when no corner is found, `knnMatch`
yields per-query lists of at most `k` matches, `ORB.compute` drops
keypoints whose patch is unusable and yields `None` descriptors when
nothing survives).  Failure of the Python code (an uncaught exception)
is modelled with `Except`.
-/

namespace Slam

/-- A video frame: a `width × height` grid of pixels with 3 colour
channels (indexed 0,1,2 in BGR order as in OpenCV). -/
structure Frame where
  w : Nat
  h : Nat
  px : Nat → Nat → Fin 3 → Nat

/-- `np.mean(frame, axis=2).astype(np.uint8)`: per-pixel mean of the three
channels, truncated to an integer. -/
def meanPix (f : Frame) (x y : Nat) : Nat :=
  (f.px x y 0 + f.px x y 1 + f.px x y 2) / 3

/-- `cv2.KeyPoint(x=…, y=…, _size=20)`: a 2-D location plus the fixed
detection-scale parameter. -/
structure Keypoint where
  x : Nat
  y : Nat
  size : ℚ
deriving DecidableEq, Repr

/-- A descriptor: a fixed-length vector of intensity samples. -/
abbrev Descriptor := List Nat

/-- `cv2.DMatch`: query index (current frame), train index (previous
frame) and the distance of the pair. -/
structure DMatch where
  queryIdx : Nat
  trainIdx : Nat
  distance : ℚ
deriving DecidableEq, Repr

/-- The value stored in `self.last`: the dict
`{"keypoints": …, "descriptors": …}`.  The descriptors entry can be the
Python value `None` (modelled by `Option.none`), which happens when the
frame produced no usable descriptor. -/
structure LastState (α : Type) where
  keypoints : List Keypoint
  descriptors : Option (List α)
deriving DecidableEq, Repr

/-- The mutable state of a `Display` object: target width and height plus
the single-slot temporal state `self.last` (`None` at startup). -/
structure DisplayState (α : Type) where
  width : Nat
  height : Nat
  last : Option (LastState α)
deriving DecidableEq, Repr

/-- The uncaught Python exceptions the pipeline can raise. -/
inductive PyErr where
  /-- `TypeError`: iterating over the `None` returned by
  `cv2.goodFeaturesToTrack` when no corner was found. -/
  | featuresNoneNotIterable
  /-- `cv2.error`: `knnMatch` called with `None` query descriptors. -/
  | knnNullQuery
  /-- `cv2.error`: `knnMatch` called with `None` train descriptors
  (`self.last["descriptors"]` was `None`). -/
  | knnNullTrain
  /-- `ValueError`: `for m, n in matches` unpacking a list whose length
  is not 2. -/
  | knnUnpack
deriving DecidableEq, Repr

deriving instance DecidableEq for Except

/-! ### The matcher (`Display.find_matches`) -/

/-- Candidate ordering used to rank `knnMatch` results: by distance, ties
broken by train index (a deterministic stand-in for OpenCV's stable
ranking). -/
def ple (a b : ℚ × Nat) : Prop :=
  a.1 < b.1 ∨ (a.1 = b.1 ∧ a.2 ≤ b.2)

instance : DecidableRel ple := fun _ _ =>
  inferInstanceAs (Decidable (_ ∨ _))

instance : IsTotal (ℚ × Nat) ple := by
  constructor
  intro a b
  rcases lt_trichotomy a.1 b.1 with h | h | h
  · exact Or.inl (Or.inl h)
  · rcases Nat.le_total a.2 b.2 with h2 | h2
    · exact Or.inl (Or.inr ⟨h, h2⟩)
    · exact Or.inr (Or.inr ⟨h.symm, h2⟩)
  · exact Or.inr (Or.inl h)

instance : IsTrans (ℚ × Nat) ple := by
  constructor
  intro a b c hab hbc
  rcases hab with hab | ⟨hab, hab2⟩
  · rcases hbc with hbc | ⟨hbc, _⟩
    · exact Or.inl (hab.trans hbc)
    · exact Or.inl (hbc ▸ hab)
  · rcases hbc with hbc | ⟨hbc, hbc2⟩
    · exact Or.inl (hab ▸ hbc)
    · exact Or.inr ⟨hab.trans hbc, hab2.trans hbc2⟩

/-- All candidates for one query descriptor, ranked by distance.
Modelled from the spec: `BFMatcher.knnMatch` performs a nearest-neighbour
search over the previous frame's descriptors. -/
def rankMatches {α : Type} (dist : α → α → ℚ) (q : α) (train : List α) :
    List (ℚ × Nat) :=
  List.insertionSort ple (train.enum.map (fun p => (dist q p.2, p.1)))

/-- The (at most) two nearest neighbours of a query descriptor. -/
def twoNN {α : Type} (dist : α → α → ℚ) (q : α) (train : List α) :
    List (ℚ × Nat) :=
  (rankMatches dist q train).take 2

/-- The distances `d1` (nearest) and `d2` (second nearest) of a query
descriptor against the previous frame's descriptor set. -/
def nnDists {α : Type} (dist : α → α → ℚ) (q : α) (train : List α) :
    ℚ × ℚ :=
  match twoNN dist q train with
  | a :: b :: _ => (a.1, b.1)
  | [a] => (a.1, a.1)
  | [] => (0, 0)

/-- The `knnMatch` result for the query descriptor with index `qi`. -/
def mkPair {α : Type} (dist : α → α → ℚ) (qi : Nat) (q : α)
    (train : List α) : List DMatch :=
  (twoNN dist q train).map (fun p => ⟨qi, p.2, p.1⟩)

/-- The per-query lists produced by `knnMatch`, with query indices
starting at `i`. -/
def knnAux {α : Type} (dist : α → α → ℚ) (train : List α) :
    Nat → List α → List (List DMatch)
  | _, [] => []
  | i, q :: qs => mkPair dist i q train :: knnAux dist train (i + 1) qs

/-- Modelled from the spec: `BFMatcher.knnMatch(query, train, k=2)` —
for every query descriptor, the `k = 2` nearest neighbours in the train
set (fewer when the train set has fewer than 2 entries); no match lists
at all when either set is empty. -/
def knnMatch {α : Type} (dist : α → α → ℚ) (query train : List α) :
    List (List DMatch) :=
  if train.isEmpty then [] else knnAux dist train 0 query

/-- The ratio-test loop of `Display.find_matches`:
`for m, n in matches: if m.distance < 0.75 * n.distance:
good_matches.append([m])`.  Unpacking a list whose length is not 2
raises `ValueError`. -/
def goodLoop : List (List DMatch) → Except PyErr (List (List DMatch))
  | [] => .ok []
  | [m, n] :: rest =>
    match goodLoop rest with
    | .ok acc => .ok (if m.distance < 3 / 4 * n.distance then [m] :: acc else acc)
    | .error e => .error e
  | _ :: _ => .error .knnUnpack

/-- The `if self.last:` truthy branch of `Display.find_matches`: call
`knnMatch` on the stored descriptors (raising when either descriptor
value is the Python `None`) and run the ratio-test loop. -/
def knnBranch {α : Type} (dist : α → α → ℚ) (l : LastState α)
    (descriptors : Option (List α)) : Except PyErr (List (List DMatch)) :=
  match descriptors, l.descriptors with
  | some q, some t => goodLoop (knnMatch dist q t)
  | none, _ => .error .knnNullQuery
  | some _, none => .error .knnNullTrain

/-- `Display.find_matches`: with no previous frame (`self.last` is
`None`, hence falsy) return `[]`; otherwise match against the stored
descriptors and apply the ratio test. -/
def find_matches {α : Type} (dist : α → α → ℚ) (last : Option (LastState α))
    (descriptors : Option (List α)) : Except PyErr (List (List DMatch)) :=
  match last with
  | none => .ok []
  | some l => knnBranch dist l descriptors

/-- The matcher emitted a match for the current-frame descriptor with
index `j`. -/
def matchEmittedFor (j : Nat) (good : List (List DMatch)) : Prop :=
  ∃ ms ∈ good, ∃ m ∈ ms, m.queryIdx = j

/-- The ratio test passes for query descriptor `q` against `train`. -/
def passQ {α : Type} (dist : α → α → ℚ) (q : α) (train : List α) : Prop :=
  (nnDists dist q train).1 < 3 / 4 * (nnDists dist q train).2

/-! ### The resizer (`Display.process_frame`) -/

/-- Modelled from the spec: the source coordinate sampled for destination
pixel `d` when rescaling an axis of `src` pixels to `dst` pixels
(OpenCV's `INTER_LINEAR` pixel-centre convention). -/
def srcCoord (src dst d : Nat) : ℚ :=
  ((d : ℚ) + 1 / 2) * src / dst - 1 / 2

/-- Modelled from the spec: `cv2.resize(frame, (W, H))` — a new frame of
exactly the target dimensions, each destination pixel bilinearly
interpolated from the source pixels around its back-projected
coordinate (clamped to the frame border). -/
def resize (f : Frame) (W H : Nat) : Frame where
  w := W
  h := H
  px := fun dx dy c =>
    let sx := max 0 (min (srcCoord f.w W dx) ((f.w : ℚ) - 1))
    let sy := max 0 (min (srcCoord f.h H dy) ((f.h : ℚ) - 1))
    let x0 := (Int.floor sx).toNat
    let y0 := (Int.floor sy).toNat
    let x1 := min (x0 + 1) (f.w - 1)
    let y1 := min (y0 + 1) (f.h - 1)
    let fx := sx - (x0 : ℚ)
    let fy := sy - (y0 : ℚ)
    (round ((1 - fx) * (1 - fy) * (f.px x0 y0 c : ℚ)
      + fx * (1 - fy) * (f.px x1 y0 c : ℚ)
      + (1 - fx) * fy * (f.px x0 y1 c : ℚ)
      + fx * fy * (f.px x1 y1 c : ℚ))).toNat

/-- Two frames are pixel-identical: same dimensions and the same value at
every in-range pixel and channel. -/
def frameEq (f g : Frame) : Prop :=
  f.w = g.w ∧ f.h = g.h ∧
    ∀ x, x < f.w → ∀ y, y < f.h → ∀ c : Fin 3, f.px x y c = g.px x y c

/-- `Display.process_frame`: resize the frame to the configured target
width and height. -/
def process_frame {α : Type} (st : DisplayState α) (f : Frame) : Frame :=
  resize f st.width st.height

/-! ### The keypoint detector (`cv2.goodFeaturesToTrack` call) -/

/-- Squared-distance separation check used by the detector: the two
candidates are at least `minD` pixels apart. -/
def farEnough (minD : ℚ) (a b : Nat × Nat) : Bool :=
  decide (minD ^ 2 ≤ ((((a.1 : ℤ) - b.1) ^ 2 + ((a.2 : ℤ) - b.2) ^ 2 : ℤ) : ℚ))

/-- Greedy selection of candidates (already ranked strongest-first):
keep a candidate when it is at least `minD` away from everything kept so
far, stopping once `maxC` candidates are kept. -/
def greedyPick (minD : ℚ) (maxC : Nat) :
    List (Nat × Nat) → List (Nat × Nat) → List (Nat × Nat)
  | [], acc => acc.reverse
  | c :: cs, acc =>
    if maxC ≤ acc.length then acc.reverse
    else if acc.all (fun k => farEnough minD c k) then
      greedyPick minD maxC cs (c :: acc)
    else greedyPick minD maxC cs acc

/-- The pixel grid of a `w × h` image, row by row. -/
def gridPts (w h : Nat) : List (Nat × Nat) :=
  (List.range h).flatMap (fun y => (List.range w).map (fun x => (x, y)))

/-- The maximum of a list of corner responses (tail recursion with a
forced accumulator, so that concrete instances evaluate iteratively). -/
def maxResp : List ℚ → ℚ → ℚ
  | [], acc => acc
  | q :: qs, acc =>
    match decide (acc < q) with
    | true => maxResp qs q
    | false => maxResp qs acc

/-- Strict application on `ℚ`: forces the rational before substituting
it, so that concrete instances evaluate it only once.  Definitionally
equal to plain application (`strictApp_eq`). -/
def strictApp {α : Type} (q : ℚ) (f : ℚ → α) : α :=
  match q with
  | ⟨n, d, h1, h2⟩ => f ⟨n, d, h1, h2⟩

lemma strictApp_eq {α : Type} (q : ℚ) (f : ℚ → α) : strictApp q f = f q := rfl

/-- Modelled from the spec: `cv2.goodFeaturesToTrack` — over the
intensity image, keep the corner candidates whose response exceeds
`quality` times the maximum response, rank them strongest first, enforce
the minimum pairwise separation `minD`, return at most `maxC` corners,
and return the Python `None` (here `Option.none`) when no corner is
found.  The corner-response function is abstracted as the `response`
parameter. -/
def gFTT (response : Nat → Nat → ℚ) (w h maxC : Nat) (quality minD : ℚ) :
    Option (List (Nat × Nat)) :=
  strictApp
    (quality * maxResp ((gridPts w h).map (fun p => response p.1 p.2)) 0)
    (fun thresh =>
      let cands := (gridPts w h).filter
        (fun p => decide (thresh < response p.1 p.2))
      let ranked := List.insertionSort
        (fun a b => response b.1 b.2 ≤ response a.1 a.2) cands
      let picked := greedyPick minD maxC ranked []
      if picked.isEmpty then none else some picked)

/-- The keypoint-detection part of `Display.find_orbs`: run the corner
detector on the channel-mean intensity image with the fixed constants
`maxCorners=3000`, `qualityLevel=0.01`, `minDistance=3`, and build a
`cv2.KeyPoint` with `_size=20` for every corner.  `none` models the
`None` returned when no corner is found. -/
def detectKeypoints (resp : (Nat → Nat → Nat) → Nat → Nat → ℚ) (f : Frame) :
    Option (List Keypoint) :=
  (gFTT (resp (meanPix f)) f.w f.h 3000 (1 / 100) 3).map
    (List.map (fun p => ⟨p.1, p.2, 20⟩))

/-! ### The descriptor computer (`cv2.circle` + `ORB.compute`) -/

/-- Modelled from the spec: `cv2.circle(img=frame, center=(u,v),
color=(0,255,0), radius=2)` — the overlay marker drawn at a keypoint
location, modelled as colouring every pixel within the marker radius
green (BGR `(0,255,0)`). -/
def drawCircle (f : Frame) (u v r : Nat) : Frame :=
  { f with
    px := fun x y c =>
      if ((x : ℤ) - u) ^ 2 + ((y : ℤ) - v) ^ 2 ≤ (r : ℤ) ^ 2 then
        (if c = 1 then 255 else 0)
      else f.px x y c }

/-- The sampling-patch radius of a keypoint: half its scale parameter
(scale 20 gives radius 10). -/
def kRadius (k : Keypoint) : Nat :=
  (Int.floor (k.size / 2)).toNat

/-- A keypoint is usable for descriptor computation when its sampling
patch lies entirely inside the frame. -/
def suitable (f : Frame) (k : Keypoint) : Bool :=
  decide (kRadius k ≤ k.x ∧ k.x + kRadius k < f.w ∧
    kRadius k ≤ k.y ∧ k.y + kRadius k < f.h)

/-- The three sampling offsets along one patch axis (left edge, centre,
right edge of the patch). -/
def sampleOffsets (r : Nat) : List Nat := [0, r, 2 * r]

/-- Modelled from the spec: the fixed-length descriptor of a keypoint —
a sparse sampling of the intensity pattern of the keypoint's patch (nine
samples on a 3×3 grid over the patch, echoing ORB's sparse point
sampling). -/
def descOf (f : Frame) (k : Keypoint) : Descriptor :=
  (sampleOffsets (kRadius k)).flatMap (fun dy =>
    (sampleOffsets (kRadius k)).map (fun dx =>
      meanPix f (k.x + dx - kRadius k) (k.y + dy - kRadius k)))

/-- Modelled from the spec: `ORB.compute(frame, keypoints)` — drop the
keypoints whose patch is unusable, compute one descriptor per surviving
keypoint (positionally paired), and yield the Python `None` for the
descriptor array when nothing survives. -/
def orbCompute (f : Frame) (kps : List Keypoint) :
    List Keypoint × Option (List Descriptor) :=
  (kps.filter (fun k => suitable f k),
    if (kps.filter (fun k => suitable f k)).isEmpty then none
    else some ((kps.filter (fun k => suitable f k)).map (descOf f)))

/-- `Display.find_orbs`: detect corners on the channel-mean image, draw
a debug circle on the frame at every keypoint, then run `ORB.compute`
on the (now annotated) frame.  When the detector found nothing it
returned `None`, and the `for feature in features:` loop raises
`TypeError`. -/
def find_orbs (resp : (Nat → Nat → Nat) → Nat → Nat → ℚ) (f : Frame) :
    Except PyErr (List Keypoint × Option (List Descriptor)) :=
  match detectKeypoints resp f with
  | none => .error .featuresNoneNotIterable
  | some kps =>
    .ok (orbCompute (kps.foldl (fun fr k => drawCircle fr k.x k.y 2) f) kps)

/-- The drawing-free variant of `Display.find_orbs`, following the
spec's words that the overlay marker "must not influence detection or
matching": identical to `find_orbs` except that `ORB.compute` runs on
the unannotated frame. -/
def find_orbs_nodraw (resp : (Nat → Nat → Nat) → Nat → Nat → ℚ) (f : Frame) :
    Except PyErr (List Keypoint × Option (List Descriptor)) :=
  match detectKeypoints resp f with
  | none => .error .featuresNoneNotIterable
  | some kps => .ok (orbCompute f kps)

/-! ### The per-frame pipeline (`Display.draw`) -/

/-- The state of a freshly constructed `Display` (`self.last = None`). -/
def initState (w h : Nat) : DisplayState Descriptor :=
  ⟨w, h, none⟩

/-- `Display.draw`: resize, detect and describe, match against the
previous frame, then unconditionally replace `self.last` with the
current frame's `(keypoints, descriptors)` pair.  Rendering (SDL) is an
external collaborator and is not modelled; the produced matches are
returned alongside the new state. -/
def draw (resp : (Nat → Nat → Nat) → Nat → Nat → ℚ)
    (dist : Descriptor → Descriptor → ℚ) (st : DisplayState Descriptor)
    (f : Frame) :
    Except PyErr (DisplayState Descriptor × List (List DMatch)) :=
  match find_orbs resp (process_frame st f) with
  | .error e => .error e
  | .ok (kps, ds) =>
    match find_matches dist st.last ds with
    | .error e => .error e
    | .ok ms => .ok ({ st with last := some ⟨kps, ds⟩ }, ms)

/-! ### Concrete inputs used by witnesses and counterexamples -/

/-- Absolute-difference distance on rational "descriptors". -/
def distAbs (a b : ℚ) : ℚ := |a - b|

/-- A trivial descriptor distance. -/
def distZero : Descriptor → Descriptor → ℚ := fun _ _ => 0

/-- A corner response that vanishes everywhere (a featureless frame). -/
def respZero : (Nat → Nat → Nat) → Nat → Nat → ℚ := fun _ _ _ => 0

/-- A constant corner response. -/
def respOne : (Nat → Nat → Nat) → Nat → Nat → ℚ := fun _ _ _ => 1

/-- A 1×1 frame of constant intensity. -/
def frame11 : Frame := ⟨1, 1, fun _ _ _ => 10⟩

/-- A 2×2 frame with distinct pixel values. -/
def frame22 : Frame := ⟨2, 2, fun x y c => 5 * x + 3 * y + c⟩

/-- A `Display` state with a 1×1 target and no previous frame. -/
def st11 : DisplayState Descriptor := ⟨1, 1, none⟩

/-- A `Display` state with a 2×2 target and no previous frame. -/
def st22 : DisplayState Descriptor := ⟨2, 2, none⟩

/-- A 21×21 frame of constant intensity, large enough for one descriptor
patch. -/
def frameC6 : Frame := ⟨21, 21, fun _ _ _ => 10⟩

/-- A corner response with a single corner at the patch centre (10,10). -/
def respC6 : (Nat → Nat → Nat) → Nat → Nat → ℚ :=
  fun _ x y => if x = 10 ∧ y = 10 then 1 else 0

/-- A 3×3 frame (large enough for a scale-2 keypoint's patch). -/
def frame33 : Frame := ⟨3, 3, fun x y c => x + 2 * y + c⟩

/-! ### Helper lemmas -/

lemma draw_last_eq (resp : (Nat → Nat → Nat) → Nat → Nat → ℚ)
    (dist : Descriptor → Descriptor → ℚ) (st : DisplayState Descriptor)
    (f : Frame) (st2 : DisplayState Descriptor) (ms : List (List DMatch))
    (h : draw resp dist st f = .ok (st2, ms)) :
    ∃ kps ds, find_orbs resp (process_frame st f) = .ok (kps, ds) ∧
      st2 = { st with last := some ⟨kps, ds⟩ } := by
  unfold draw at h
  cases hfo : find_orbs resp (process_frame st f) with
  | error e => rw [hfo] at h; simp at h
  | ok p =>
    obtain ⟨kps, ds⟩ := p
    rw [hfo] at h
    dsimp only at h
    cases hfm : find_matches dist st.last ds with
    | error e => rw [hfm] at h; simp at h
    | ok ms2 =>
      rw [hfm] at h
      simp only [Except.ok.injEq, Prod.mk.injEq] at h
      exact ⟨kps, ds, rfl, h.1.symm⟩

lemma drawCircle_w (f : Frame) (u v r : Nat) : (drawCircle f u v r).w = f.w := rfl

lemma drawCircle_h (f : Frame) (u v r : Nat) : (drawCircle f u v r).h = f.h := rfl

lemma foldl_drawCircle_dims (l : List Keypoint) (f : Frame) :
    (l.foldl (fun fr k => drawCircle fr k.x k.y 2) f).w = f.w ∧
      (l.foldl (fun fr k => drawCircle fr k.x k.y 2) f).h = f.h := by
  induction l generalizing f with
  | nil => exact ⟨rfl, rfl⟩
  | cons k l ih => simpa using ih (drawCircle f k.x k.y 2)

lemma suitable_dims_congr (f g : Frame) (hw : f.w = g.w) (hh : f.h = g.h)
    (k : Keypoint) : suitable f k = suitable g k := by
  unfold suitable
  rw [hw, hh]

lemma rankMatches_length {α : Type} (dist : α → α → ℚ) (q : α)
    (train : List α) : (rankMatches dist q train).length = train.length := by
  unfold rankMatches
  rw [List.length_insertionSort, List.length_map, List.enum_length]

lemma ple_le {a b : ℚ × Nat} (h : ple a b) : a.1 ≤ b.1 := by
  rcases h with h | ⟨h, _⟩
  · exact le_of_lt h
  · exact le_of_eq h

lemma twoNN_pair {α : Type} (dist : α → α → ℚ) (q : α) (train : List α)
    (ht : 2 ≤ train.length) :
    ∃ a b, twoNN dist q train = [a, b] ∧ a.1 ≤ b.1 := by
  have hlen := rankMatches_length dist q train
  have hsorted : List.Sorted ple (rankMatches dist q train) :=
    List.sorted_insertionSort ple _
  unfold twoNN
  match hr : rankMatches dist q train with
  | [] => rw [hr] at hlen; simp at hlen; omega
  | [a] => rw [hr] at hlen; simp at hlen; omega
  | a :: b :: t =>
    refine ⟨a, b, by simp, ?_⟩
    rw [hr] at hsorted
    exact ple_le ((List.pairwise_cons.mp hsorted).1 b (by simp))

lemma mkPair_eq {α : Type} (dist : α → α → ℚ) (qi : Nat) (q : α)
    (train : List α) (a b : ℚ × Nat) (h : twoNN dist q train = [a, b]) :
    mkPair dist qi q train = [⟨qi, a.2, a.1⟩, ⟨qi, b.2, b.1⟩] := by
  unfold mkPair
  rw [h]
  rfl

lemma nnDists_eq {α : Type} (dist : α → α → ℚ) (q : α) (train : List α)
    (a b : ℚ × Nat) (h : twoNN dist q train = [a, b]) :
    nnDists dist q train = (a.1, b.1) := by
  unfold nnDists
  rw [h]

lemma goodLoop_knnAux {α : Type} (dist : α → α → ℚ) (train : List α)
    (ht : 2 ≤ train.length) (qs : List α) :
    ∀ i : Nat, ∃ good, goodLoop (knnAux dist train i qs) = .ok good ∧
      ∀ j, matchEmittedFor j good ↔
        ∃ k qq, qs.get? k = some qq ∧ j = i + k ∧ passQ dist qq train := by
  induction qs with
  | nil =>
    intro i
    refine ⟨[], rfl, fun j => ?_⟩
    constructor
    · rintro ⟨ms, hms, -⟩; exact absurd hms (List.not_mem_nil ms)
    · rintro ⟨k, qq, hk, -, -⟩; simp at hk
  | cons q qs ih =>
    intro i
    obtain ⟨a, b, hab, hle⟩ := twoNN_pair dist q train ht
    obtain ⟨good1, hg1, hiff⟩ := ih (i + 1)
    have hpq : passQ dist q train ↔ a.1 < 3 / 4 * b.1 := by
      unfold passQ
      rw [nnDists_eq dist q train a b hab]
    have hknn : knnAux dist train i (q :: qs)
        = mkPair dist i q train :: knnAux dist train (i + 1) qs := rfl
    rw [hknn, mkPair_eq dist i q train a b hab]
    have hloop : goodLoop ([⟨i, a.2, a.1⟩, ⟨i, b.2, b.1⟩]
          :: knnAux dist train (i + 1) qs)
        = .ok (if a.1 < 3 / 4 * b.1
            then [(⟨i, a.2, a.1⟩ : DMatch)] :: good1 else good1) := by
      unfold goodLoop
      rw [hg1]
    refine ⟨_, hloop, fun j => ?_⟩
    have hrest : ∀ j, matchEmittedFor j good1 → i + 1 ≤ j := by
      intro j hj
      obtain ⟨k, qq, -, hjk, -⟩ := (hiff j).mp hj
      omega
    constructor
    · intro hj
      by_cases hp : a.1 < 3 / 4 * b.1
      · rw [if_pos hp] at hj
        obtain ⟨ms, hms, m, hm, hqidx⟩ := hj
        rcases List.mem_cons.mp hms with hms | hms
        · subst hms
          rcases List.mem_singleton.mp hm with rfl
          have h0 : i = j := hqidx
          exact ⟨0, q, by simp, by omega, hpq.mpr hp⟩
        · obtain ⟨k, qq, hget, hjk, hpass⟩ := (hiff j).mp ⟨ms, hms, m, hm, hqidx⟩
          exact ⟨k + 1, qq, by simpa using hget, by omega, hpass⟩
      · rw [if_neg hp] at hj
        obtain ⟨k, qq, hget, hjk, hpass⟩ := (hiff j).mp hj
        exact ⟨k + 1, qq, by simpa using hget, by omega, hpass⟩
    · rintro ⟨k, qq, hget, hjk, hpass⟩
      match k with
      | 0 =>
        simp only [List.get?] at hget
        obtain rfl : q = qq := by injection hget
        have hp : a.1 < 3 / 4 * b.1 := hpq.mp hpass
        rw [if_pos hp]
        exact ⟨[⟨i, a.2, a.1⟩], by simp, ⟨i, a.2, a.1⟩, by simp,
          by show i = j; omega⟩
      | k + 1 =>
        have hj1 : matchEmittedFor j good1 :=
          (hiff j).mpr ⟨k, qq, by simpa using hget, by omega, hpass⟩
        by_cases hp : a.1 < 3 / 4 * b.1
        · rw [if_pos hp]
          obtain ⟨ms, hms, hm⟩ := hj1
          exact ⟨ms, List.mem_cons_of_mem _ hms, hm⟩
        · rw [if_neg hp]
          exact hj1

lemma farEnough_symm (minD : ℚ) (a b : Nat × Nat) :
    farEnough minD a b = farEnough minD b a := by
  unfold farEnough
  rw [show ((a.1 : ℤ) - b.1) ^ 2 = ((b.1 : ℤ) - a.1) ^ 2 by ring,
    show ((a.2 : ℤ) - b.2) ^ 2 = ((b.2 : ℤ) - a.2) ^ 2 by ring]

lemma greedyPick_length (minD : ℚ) (maxC : Nat) :
    ∀ (cs acc : List (Nat × Nat)), acc.length ≤ maxC →
      (greedyPick minD maxC cs acc).length ≤ maxC := by
  intro cs
  induction cs with
  | nil => intro acc hacc; simpa [greedyPick] using hacc
  | cons c cs ih =>
    intro acc hacc
    unfold greedyPick
    by_cases h1 : maxC ≤ acc.length
    · rw [if_pos h1]; simpa using hacc
    · rw [if_neg h1]
      by_cases h2 : acc.all (fun k => farEnough minD c k)
      · rw [if_pos h2]
        exact ih (c :: acc) (by simp; omega)
      · rw [if_neg h2]
        exact ih acc hacc

lemma greedyPick_pairwise (minD : ℚ) (maxC : Nat) :
    ∀ (cs acc : List (Nat × Nat)),
      acc.Pairwise (fun a b => farEnough minD a b = true) →
      (greedyPick minD maxC cs acc).Pairwise
        (fun a b => farEnough minD a b = true) := by
  have hrev : ∀ acc : List (Nat × Nat),
      acc.Pairwise (fun a b => farEnough minD a b = true) →
      acc.reverse.Pairwise (fun a b => farEnough minD a b = true) := by
    intro acc hacc
    rw [List.pairwise_reverse]
    exact hacc.imp (fun h => (farEnough_symm minD _ _).trans h)
  intro cs
  induction cs with
  | nil => intro acc hacc; exact hrev acc hacc
  | cons c cs ih =>
    intro acc hacc
    unfold greedyPick
    by_cases h1 : maxC ≤ acc.length
    · rw [if_pos h1]; exact hrev acc hacc
    · rw [if_neg h1]
      by_cases h2 : acc.all (fun k => farEnough minD c k)
      · rw [if_pos h2]
        refine ih (c :: acc) (List.pairwise_cons.mpr ⟨?_, hacc⟩)
        intro b hb
        exact List.all_eq_true.mp h2 b hb
      · rw [if_neg h2]
        exact ih acc hacc

lemma srcCoord_self (w x : Nat) (hx : x < w) : srcCoord w w x = (x : ℚ) := by
  unfold srcCoord
  have hw : (w : ℚ) ≠ 0 := Nat.cast_ne_zero.mpr (by omega)
  rw [mul_div_assoc, div_self hw, mul_one]
  ring

lemma clamp_self (w x : Nat) (hx : x < w) :
    max 0 (min (srcCoord w w x) ((w : ℚ) - 1)) = (x : ℚ) := by
  rw [srcCoord_self w x hx]
  have h1 : (x : ℚ) ≤ (w : ℚ) - 1 := by
    have : (x : ℚ) + 1 ≤ (w : ℚ) := by exact_mod_cast Nat.succ_le_of_lt hx
    linarith
  rw [min_eq_left h1, max_eq_right (by positivity)]

lemma resize_self_px (f : Frame) (x y : Nat) (c : Fin 3) (hx : x < f.w)
    (hy : y < f.h) : (resize f f.w f.h).px x y c = f.px x y c := by
  simp only [resize, clamp_self f.w x hx, clamp_self f.h y hy,
    Int.floor_natCast, Int.toNat_natCast, sub_self, sub_zero, one_mul,
    zero_mul, mul_zero, add_zero, mul_one, round_natCast]

/-! ### The claims -/

/-- C1: for every current-frame descriptor matched against a previous
descriptor set with at least two entries, with `d1` the distance to its
nearest neighbour and `d2` the distance to its second-nearest neighbour
(`d1 ≤ d2`), `find_matches` emits a match for that descriptor if and
only if `d1 < 0.75 * d2` (strict, so the boundary `d1 = 0.75 * d2` is
rejected). -/
theorem ratio_test_iff {α : Type} (dist : α → α → ℚ) (kps : List Keypoint)
    (query train : List α) (ht : 2 ≤ train.length) (qi : Nat) (q : α)
    (hq : query.get? qi = some q) :
    (nnDists dist q train).1 ≤ (nnDists dist q train).2 ∧
    ∃ good,
      find_matches dist (some ⟨kps, some train⟩) (some query) = .ok good ∧
      (matchEmittedFor qi good ↔
        (nnDists dist q train).1 < 3 / 4 * (nnDists dist q train).2) := by
  obtain ⟨a, b, hab, hle⟩ := twoNN_pair dist q train ht
  refine ⟨by rw [nnDists_eq dist q train a b hab]; exact hle, ?_⟩
  have htne : ¬ train.isEmpty := by
    cases train
    · simp at ht
    · simp
  obtain ⟨good, hg, hiff⟩ := goodLoop_knnAux dist train ht query 0
  refine ⟨good, ?_, ?_⟩
  · show knnBranch dist ⟨kps, some train⟩ (some query) = .ok good
    show goodLoop (knnMatch dist query train) = .ok good
    unfold knnMatch
    rw [if_neg htne]
    exact hg
  · constructor
    · intro hj
      obtain ⟨k, qq, hget, hk, hpass⟩ := (hiff qi).mp hj
      obtain rfl : k = qi := by omega
      rw [hq] at hget
      obtain rfl : qq = q := by injection hget with he; exact he.symm
      exact hpass
    · intro hlt
      exact (hiff qi).mpr ⟨qi, q, hq, by omega, hlt⟩

/-- C1 witness: descriptor `0` against previous set `[1, 2]` has
`d1 = 1 ≤ d2 = 2` and is emitted since `1 < 0.75 * 2`. -/
theorem ratio_test_iff_witness :
    (nnDists distAbs 0 [1, 2]).1 ≤ (nnDists distAbs 0 [1, 2]).2 ∧
    ∃ good,
      find_matches distAbs (some ⟨[], some [1, 2]⟩) (some [0]) = .ok good ∧
      (matchEmittedFor 0 good ↔
        (nnDists distAbs 0 [1, 2]).1 < 3 / 4 * (nnDists distAbs 0 [1, 2]).2) :=
  ratio_test_iff distAbs [] [0] [1, 2] (by decide) 0 0 rfl

/-- C2: with an empty temporal state (`self.last` is `None`), the
matcher returns the empty match list for every current descriptor set,
without error. -/
theorem empty_state_empty_matches {α : Type} (dist : α → α → ℚ)
    (descriptors : Option (List α)) :
    find_matches dist none descriptors = .ok [] := rfl

/-- C3: whenever `draw` completes on a frame, the temporal state is
unconditionally replaced by exactly that frame's `(keypoints,
descriptors)` pair as produced by `find_orbs` on the resized frame,
regardless of the previous state and of the matches found. -/
theorem state_replaced (resp : (Nat → Nat → Nat) → Nat → Nat → ℚ)
    (dist : Descriptor → Descriptor → ℚ) (st : DisplayState Descriptor)
    (f : Frame) (st2 : DisplayState Descriptor) (ms : List (List DMatch))
    (h : draw resp dist st f = .ok (st2, ms)) :
    ∃ kps ds, find_orbs resp (process_frame st f) = .ok (kps, ds) ∧
      st2.last = some ⟨kps, ds⟩ := by
  obtain ⟨kps, ds, hfo, hst⟩ := draw_last_eq resp dist st f st2 ms h
  exact ⟨kps, ds, hfo, by rw [hst]⟩

/-- C3 witness: one concrete frame through `draw` stores exactly that
frame's pair. -/
theorem state_replaced_witness :
    ∃ kps ds, find_orbs respOne (process_frame st11 frame11) = .ok (kps, ds) ∧
      (⟨1, 1, some ⟨[], none⟩⟩ : DisplayState Descriptor).last = some ⟨kps, ds⟩ :=
  state_replaced respOne distZero st11 frame11 ⟨1, 1, some ⟨[], none⟩⟩ []
    (of_decide_eq_true (by with_unfolding_all rfl))

/-- C4: whenever `ORB.compute` produces a descriptor list, it has the
same length as the surviving keypoint list and the descriptor at index
`i` is computed from the keypoint at index `i` (positional 1:1
invariant), keypoint dropping included. -/
theorem positional_invariant (f : Frame) (kps : List Keypoint)
    (ds : List Descriptor) (h : (orbCompute f kps).2 = some ds) :
    (orbCompute f kps).1.length = ds.length ∧
      ds = (orbCompute f kps).1.map (descOf f) := by
  unfold orbCompute at h ⊢
  by_cases hk : (kps.filter (fun k => suitable f k)).isEmpty
  · rw [if_pos hk] at h
    simp at h
  · rw [if_neg hk] at h
    obtain rfl : (kps.filter (fun k => suitable f k)).map (descOf f) = ds := by
      injection h
    exact ⟨(List.length_map _ _).symm, rfl⟩

/-- C4 witness: a 3×3 frame with one surviving keypoint. -/
theorem positional_invariant_witness :
    (orbCompute frame33 [⟨1, 1, 2⟩]).1.length
        = [[1, 2, 3, 3, 4, 5, 5, 6, 7]].length ∧
      ([[1, 2, 3, 3, 4, 5, 5, 6, 7]] : List Descriptor)
        = (orbCompute frame33 [⟨1, 1, 2⟩]).1.map (descOf frame33) :=
  positional_invariant frame33 [⟨1, 1, 2⟩] [[1, 2, 3, 3, 4, 5, 5, 6, 7]]
    (of_decide_eq_true (by with_unfolding_all rfl))

/-- C5: on a frame with zero corner candidates the detector call yields
the Python `None`, and `find_orbs` raises `TypeError` iterating over it
instead of returning an empty sequence — the code fails the frame,
contradicting the claim. -/
theorem zero_corners_raises :
    find_orbs respZero frame11 = .error .featuresNoneNotIterable :=
  of_decide_eq_true (by with_unfolding_all rfl)

/-- C7: when the previous descriptor set has exactly one entry,
`knnMatch` returns one-element candidate lists and the unpacking
`for m, n in matches` raises `ValueError` — the matcher fails instead of
returning an empty match list, contradicting the claim. -/
theorem single_prev_descriptor_raises :
    find_matches distAbs (some ⟨[], some [(5 : ℚ)]⟩) (some [(3 : ℚ)])
      = .error .knnUnpack :=
  of_decide_eq_true (by with_unfolding_all rfl)

set_option maxRecDepth 100000 in
/-- C6 counterexample: on a concrete frame with one keypoint,
`find_orbs` (which draws the overlay markers before `ORB.compute`)
produces a different descriptor list than the drawing-free variant —
the markers do influence the computed descriptors. -/
theorem markers_change_descriptors :
    (find_orbs respC6 frameC6).toOption.map (fun r => r.2) ≠
        (find_orbs_nodraw respC6 frameC6).toOption.map (fun r => r.2) ∧
      ((find_orbs respC6 frameC6).toOption.map (fun r => r.2)).isSome = true :=
  of_decide_eq_true (by with_unfolding_all rfl)

/-- C6 amended: the overlay markers do not influence which keypoints are
detected and retained (corner detection runs on the intensity image
taken before drawing, and keypoint pruning is border-based), but the
descriptors are computed on the frame after the markers are drawn, so
descriptor output can differ from the unmarked frame. -/
theorem markers_keypoints_unaffected
    (resp : (Nat → Nat → Nat) → Nat → Nat → ℚ) (f : Frame) :
    (find_orbs resp f).toOption.map Prod.fst
      = (find_orbs_nodraw resp f).toOption.map Prod.fst := by
  unfold find_orbs find_orbs_nodraw
  cases h : detectKeypoints resp f with
  | none => rfl
  | some kps =>
    show (Except.ok (orbCompute _ kps)).toOption.map Prod.fst
      = (Except.ok (orbCompute f kps)).toOption.map Prod.fst
    have hdims := foldl_drawCircle_dims kps f
    simp only [Except.toOption, Option.map, orbCompute]
    congr 1
    exact List.filter_congr fun k _ =>
      suitable_dims_congr _ f hdims.1 hdims.2 k

/-- C8: whenever the keypoint detector returns a keypoint list, it has
at most 3000 entries, all pairs of returned keypoints are at least 3
pixels apart, and every returned keypoint carries the fixed
detection-scale parameter 20. -/
theorem detector_bounds (resp : (Nat → Nat → Nat) → Nat → Nat → ℚ)
    (f : Frame) (kps : List Keypoint) (h : detectKeypoints resp f = some kps) :
    kps.length ≤ 3000 ∧
      kps.Pairwise (fun a b => (3 : ℚ) ^ 2 ≤
        ((((a.x : ℤ) - b.x) ^ 2 + ((a.y : ℤ) - b.y) ^ 2 : ℤ) : ℚ)) ∧
      ∀ k ∈ kps, k.size = 20 := by
  unfold detectKeypoints at h
  obtain ⟨feats, hf, rfl⟩ := Option.map_eq_some'.mp h
  unfold gFTT at hf
  rw [strictApp_eq] at hf
  dsimp only at hf
  split at hf
  · exact absurd hf (by simp)
  · obtain rfl : _ = feats := by injection hf
    refine ⟨?_, ?_, ?_⟩
    · rw [List.length_map]
      exact greedyPick_length 3 3000 _ [] (by simp)
    · rw [List.pairwise_map]
      refine (greedyPick_pairwise 3 3000 _ [] List.Pairwise.nil).imp ?_
      intro a b hab
      exact of_decide_eq_true hab
    · intro k hk
      obtain ⟨p, -, rfl⟩ := List.mem_map.mp hk
      rfl

/-- C8 witness: a 1×1 frame with a single corner. -/
theorem detector_bounds_witness :
    ([(⟨0, 0, 20⟩ : Keypoint)] : List Keypoint).length ≤ 3000 ∧
      ([(⟨0, 0, 20⟩ : Keypoint)] : List Keypoint).Pairwise (fun a b =>
        (3 : ℚ) ^ 2 ≤
          ((((a.x : ℤ) - b.x) ^ 2 + ((a.y : ℤ) - b.y) ^ 2 : ℤ) : ℚ)) ∧
      ∀ k ∈ ([(⟨0, 0, 20⟩ : Keypoint)] : List Keypoint), k.size = 20 :=
  detector_bounds respOne frame11 [⟨0, 0, 20⟩]
    (of_decide_eq_true (by with_unfolding_all rfl))

/-- C9: resizing a frame whose dimensions already equal the configured
target returns a pixel-identical frame. -/
theorem resize_idempotent (st : DisplayState Descriptor) (f : Frame)
    (hw : f.w = st.width) (hh : f.h = st.height) :
    frameEq (process_frame st f) f := by
  unfold process_frame
  rw [← hw, ← hh]
  exact ⟨rfl, rfl, fun x hx y hy c => resize_self_px f x y c hx hy⟩

/-- C9 witness: a concrete 2×2 frame resized to 2×2. -/
theorem resize_idempotent_witness : frameEq (process_frame st22 frame22) frame22 :=
  resize_idempotent st22 frame22 rfl rfl

/-- C10: the temporal state is `None` exactly until the first frame:
the initial state is `None`; every completed `draw` stores a truthy
(`some`) state; with a stored state the matcher always takes the
`knnMatch` branch, and when the stored descriptors value is the Python
`None` that branch raises instead of returning the first-frame empty
result. -/
theorem last_truthy_after_first_frame :
    (∀ w h, (initState w h).last = none) ∧
      (∀ resp dist st f st2 ms, draw resp dist st f = .ok (st2, ms) →
        st2.last.isSome = true) ∧
      (∀ (dist : Descriptor → Descriptor → ℚ) (l : LastState Descriptor) ds,
        find_matches dist (some l) ds = knnBranch dist l ds) ∧
      (∀ (dist : Descriptor → Descriptor → ℚ) (l : LastState Descriptor)
          (q : List Descriptor), l.descriptors = none →
        knnBranch dist l (some q) = .error .knnNullTrain) := by
  refine ⟨fun w h => rfl, ?_, fun dist l ds => rfl, ?_⟩
  · intro resp dist st f st2 ms h
    obtain ⟨kps, ds, -, hst⟩ := draw_last_eq resp dist st f st2 ms h
    rw [hst]
    rfl
  · intro dist l q hld
    unfold knnBranch
    rw [hld]

/-- C10 witness: concrete instances of the state facts. -/
theorem last_truthy_after_first_frame_witness :
    (initState 4 3).last = none ∧
      knnBranch distZero ⟨[], none⟩ (some []) = .error .knnNullTrain :=
  ⟨last_truthy_after_first_frame.1 4 3,
    last_truthy_after_first_frame.2.2.2 distZero ⟨[], none⟩ [] rfl⟩

end Slam
